import Mathlib

/-!
Shallow embedding of `src/opentrack-stick.py`: the smoothing filter
(`Smooth`), the per-channel transforms (`StickOutputDef`, `HatOutputDef`,
`BtnPairOutputDef`), the binding-table construction performed in
`OpenTrackStick.__init__`, and the frame dispatcher `__send_to_hid__`.
Python floats are modelled as rationals; Python `round` is
round-half-to-even; `math.isclose` and Python list indexing (including
negative indices) are modelled explicitly.
-/

namespace OpentrackStick

/-- evdev event-type constant `EV_KEY`. -/
def EV_KEY : ℕ := 1

/-- evdev event-type constant `EV_ABS`. -/
def EV_ABS : ℕ := 3

/-- evdev axis code `ABS_X`. -/
def ABS_X : ℕ := 0

/-- evdev axis code `ABS_Y`. -/
def ABS_Y : ℕ := 1

/-- evdev axis code `ABS_Z`. -/
def ABS_Z : ℕ := 2

/-- evdev axis code `ABS_RX`. -/
def ABS_RX : ℕ := 3

/-- evdev axis code `ABS_RY`. -/
def ABS_RY : ℕ := 4

/-- evdev axis code `ABS_RZ`. -/
def ABS_RZ : ℕ := 5

/-- evdev axis code `ABS_HAT0X`. -/
def ABS_HAT0X : ℕ := 16

/-- evdev axis code `ABS_HAT0Y`. -/
def ABS_HAT0Y : ℕ := 17

/-- evdev button code `BTN_JOYSTICK`. -/
def BTN_JOYSTICK : ℕ := 288

/-- evdev button code `BTN_THUMB`. -/
def BTN_THUMB : ℕ := 289

/-- evdev button code `BTN_THUMB2`. -/
def BTN_THUMB2 : ℕ := 290

/-- evdev button code `BTN_TOP`. -/
def BTN_TOP : ℕ := 291

/-- evdev button code `BTN_TOP2`. -/
def BTN_TOP2 : ℕ := 292

/-- evdev button code `BTN_BASE`. -/
def BTN_BASE : ℕ := 294

/-- Python built-in `round` on rationals: round-half-to-even. -/
def pythonRound (q : ℚ) : ℤ :=
  if q - ⌊q⌋ < 1/2 then ⌊q⌋
  else if 1/2 < q - ⌊q⌋ then ⌊q⌋ + 1
  else if ⌊q⌋ % 2 = 0 then ⌊q⌋ else ⌊q⌋ + 1

/-- Python `math.isclose(a, b, rel_tol, abs_tol)`:
`abs(a-b) <= max(rel_tol * max(abs(a), abs(b)), abs_tol)`. -/
def pyIsClose (a b relTol absTol : ℚ) : Bool :=
  decide (|a - b| ≤ max (relTol * max |a| |b|) absTol)

/-- Python list indexing `l[i]`: negative indices count from the end;
`none` models an `IndexError`. -/
def pyGet {α : Type} (l : List α) (i : ℤ) : Option α :=
  let j : ℤ := if 0 ≤ i then i else (l.length : ℤ) + i
  if 0 ≤ j then l[j.toNat]? else none

/-- Whether an `Except` computation succeeded. -/
def exOk {ε α : Type} : Except ε α → Bool
  | .ok _ => true
  | .error _ => false

/-- Class `Smooth` (source lines 433-438): window length `n`, the history
buffer `values`, the smoothing factor `alpha`, and the running `total`
(used only by `smooth_simple`, kept for fidelity). -/
structure Smooth where
  length : ℤ
  values : List ℚ
  alpha : ℚ
  total : ℚ
  deriving Repr, DecidableEq

/-- `Smooth.__init__`: `self.values = [0] * n` (empty for `n <= 0`, as in
Python), `self.total = sum(self.values)`. -/
def Smooth.make (n : ℤ) (alpha : ℚ) : Smooth :=
  { length := n
    values := List.replicate n.toNat 0
    alpha := alpha
    total := (List.replicate n.toNat (0 : ℚ)).sum }

/-- One iteration of the low-pass fold body:
`smoothed = smoothed + alpha * (value - smoothed)`. -/
def lpStep (alpha acc v : ℚ) : ℚ := acc + alpha * (v - acc)

/-- The fold in `smooth_lp_filter` over an updated buffer `b`:
`smoothed = b[0] * alpha`, then the `lpStep` loop over `b[1:]`. -/
def lpFold (alpha : ℚ) (b : List ℚ) : ℚ :=
  (b.drop 1).foldl (lpStep alpha) (b.headD 0 * alpha)

/-- `Smooth.smooth_lp_filter` (source lines 453-468): short-circuit for
`length <= 1`; otherwise `pop(0)`, `append(v)`, and fold the buffer. -/
def Smooth.smooth_lp_filter (s : Smooth) (v : ℚ) : ℚ × Smooth :=
  if s.length ≤ 1 then (v, s)
  else
    let b := s.values.drop 1 ++ [v]
    (lpFold s.alpha b, { s with values := b })

/-- `Smooth.smooth` simply delegates to `smooth_lp_filter`. -/
def Smooth.smooth (s : Smooth) (v : ℚ) : ℚ × Smooth :=
  s.smooth_lp_filter v

/-- Feed the same raw value `v` into the smoother `k` times, keeping the
final state. -/
def feedN (s : Smooth) (v : ℚ) : ℕ → Smooth
  | 0 => s
  | k + 1 => ((feedN s v k).smooth v).2

/-- Output of feed number `j + 1` of the constant `v` into a freshly
constructed smoother with window `n` and factor `a`. -/
def smoothOut (n : ℤ) (a v : ℚ) (j : ℕ) : ℚ :=
  ((feedN (Smooth.make n a) v j).smooth v).1

/-- Modelled from the spec wording of the smoothing fold (`acc =
buffer[0] * alpha`; for each subsequent buffered value `v`: `acc = acc +
alpha * (v - acc)`), written as a direct recursion to compare with the
source fold `lpFold`: the accumulation loop. -/
def specFoldAux (alpha acc : ℚ) : List ℚ → ℚ
  | [] => acc
  | v :: rest => specFoldAux alpha (acc + alpha * (v - acc)) rest

/-- Modelled from the spec wording: the whole fold, starting from
`buffer[0] * alpha`. -/
def specFold (alpha : ℚ) : List ℚ → ℚ
  | [] => 0
  | x :: rest => specFoldAux alpha (x * alpha) rest

/-- `OpenTrackDataItem` namedtuple (source line 231). -/
structure OpenTrackDataItem where
  name : String
  value : ℤ
  min : ℤ
  max : ℤ
  deriving Repr, DecidableEq

/-- `self.opentrack_data_items` (source lines 244-249). -/
def opentrack_data_items : List OpenTrackDataItem :=
  [⟨"x", 0, -75, 75⟩, ⟨"y", 0, -75, 75⟩, ⟨"z", 0, -75, 75⟩,
   ⟨"yaw", 0, -90, 90⟩, ⟨"pitch", 0, -90, 90⟩, ⟨"roll", 0, -90, 90⟩]

/-- Class `StickOutputDef`: the evdev code, the device `AbsInfo` range
(`evMin`, `evMax`), the bound opentrack range (`otMin`, `otMax`; in the
source `opentrack_info` is `None` until `bind` is called, and is always
set before `cooked_value` runs), the previous smoothed value, the
exhaustion flag, and the owned smoother. -/
structure StickOutputDef where
  evdev_code : ℕ
  evMin : ℤ
  evMax : ℤ
  otMin : ℤ
  otMax : ℤ
  previous_smoothed_value : ℚ
  data_exhausted : Bool
  smoother : Smooth
  deriving Repr, DecidableEq

/-- The rescale step of `StickOutputDef.cooked_value` (source line 383):
`ev_info.min + round(((smoothed - ot_info.min) / (ot_info.max -
ot_info.min)) * (ev_info.max - ev_info.min))`. -/
def rescale (evMin evMax otMin otMax : ℤ) (smoothed : ℚ) : ℤ :=
  evMin + pythonRound (((smoothed - otMin) / ((otMax : ℚ) - otMin)) * ((evMax : ℚ) - evMin))

/-- `StickOutputDef.__init__` (source lines 370-374), with `bind` not yet
called (the opentrack range fields are placeholders until `bind`). -/
def mkStickDef (code : ℕ) (emin emax : ℤ) (smoothing : ℤ) (alpha : ℚ) : StickOutputDef :=
  { evdev_code := code
    evMin := emin
    evMax := emax
    otMin := 0
    otMax := 0
    previous_smoothed_value := 0
    data_exhausted := true
    smoother := Smooth.make smoothing alpha }

/-- `StickOutputDef.cooked_value` (source lines 376-384): smooth, set
`data_exhausted = math.isclose(smoothed, previous, abs_tol=0.1)` (the
default `rel_tol=1e-9` stays in effect), store the new previous smoothed
value, and rescale. -/
def StickOutputDef.cooked_value (st : StickOutputDef) (raw : ℚ) : ℤ × StickOutputDef :=
  let p := st.smoother.smooth raw
  (rescale st.evMin st.evMax st.otMin st.otMax p.1,
   { st with
      smoother := p.2
      data_exhausted := pyIsClose p.1 st.previous_smoothed_value (1/1000000000) (1/10)
      previous_smoothed_value := p.1 })

/-- Class `HatOutputDef`: only the evdev code matters for its behavior. -/
structure HatOutputDef where
  evdev_code : ℕ
  deriving Repr, DecidableEq

/-- `HatOutputDef.cooked_value` (source lines 397-400): `dif =
round(raw_value); return 0 if dif == 0 else dif // abs(dif)` (the method
reads no instance state). -/
def HatOutputDef.cooked_value (raw : ℚ) : ℤ :=
  let dif := pythonRound raw
  if dif = 0 then 0 else dif.fdiv |dif|

/-- Class `BtnPairOutputDef`: the currently selected `evdev_code` plus
the two fixed codes of the pair. -/
structure BtnPairOutputDef where
  evdev_code : ℕ
  evdev_code_minus : ℕ
  evdev_code_plus : ℕ
  deriving Repr, DecidableEq

/-- `BtnPairOutputDef.__init__` (source lines 405-410): the initial
`evdev_code` is the minus code (passed to `super().__init__`). -/
def BtnPairOutputDef.make (cm cp : ℕ) : BtnPairOutputDef :=
  { evdev_code := cm, evdev_code_minus := cm, evdev_code_plus := cp }

/-- `BtnPairOutputDef.cooked_value` (source lines 412-419): `None` or a
value close to zero gives no press; otherwise select the plus or minus
code by sign and return 1. -/
def BtnPairOutputDef.cooked_value (bp : BtnPairOutputDef) (raw : Option ℚ) :
    Option ℤ × BtnPairOutputDef :=
  match raw with
  | none => (none, bp)
  | some r =>
    if pyIsClose r 0 (1/1000000000) 0 then (none, bp)
    else if 0 < r then (some 1, { bp with evdev_code := bp.evdev_code_plus })
    else (some 1, { bp with evdev_code := bp.evdev_code_minus })

/-- One `hid_device.write(etype, code, value)` call. -/
structure Write where
  etype : ℕ
  code : ℕ
  value : ℤ
  deriving Repr, DecidableEq

/-- The polymorphic output definition: `StickOutputDef`, `HatOutputDef`
or `BtnPairOutputDef`. -/
inductive Dest where
  | stick (st : StickOutputDef)
  | hat (h : HatOutputDef)
  | btnPair (bp : BtnPairOutputDef)
  deriving Repr, DecidableEq

/-- Dynamic dispatch of `cooked_value`; stick and hat values are always
present, a button pair may produce no value. -/
def Dest.cooked_value : Dest → ℚ → Option ℤ × Dest
  | .stick st, raw =>
    let p := st.cooked_value raw
    (some p.1, .stick p.2)
  | .hat h, raw => (some (HatOutputDef.cooked_value raw), .hat h)
  | .btnPair bp, raw =>
    let p := bp.cooked_value (some raw)
    (p.1, .btnPair p.2)

/-- `data_exhausted` attribute after `cooked_value`: sticks carry their
own flag; `OutputDef.__init__` sets `True` and hats and button pairs
never change it. -/
def Dest.data_exhausted : Dest → Bool
  | .stick st => st.data_exhausted
  | .hat _ => true
  | .btnPair _ => true

/-- `send_to_hid` dispatch: `StickOutputDef.send_to_hid` (lines 386-388)
always writes and returns `True`; hats and button pairs use
`OutputDef.send_to_hid` (lines 358-362), which writes only a non-`None`
cooked value.  Returns the writes performed and the boolean result. -/
def Dest.send_to_hid : Dest → Option ℤ → List Write × Bool
  | .stick st, c => ([⟨EV_ABS, st.evdev_code, c.getD 0⟩], true)
  | .hat h, c =>
    match c with
    | some v => ([⟨EV_ABS, h.evdev_code, v⟩], true)
    | none => ([], false)
  | .btnPair bp, c =>
    match c with
    | some v => ([⟨EV_KEY, bp.evdev_code, v⟩], true)
    | none => ([], false)

/-- `OutputDef.bind` / binding in `__init__`: a stick records the bound
opentrack range; hats and button pairs only store the item (which their
transforms never read). -/
def Dest.bind : Dest → OpenTrackDataItem → Dest
  | .stick st, ot => .stick { st with otMin := ot.min, otMax := ot.max }
  | .hat h, _ => .hat h
  | .btnPair bp, _ => .btnPair bp

/-- Accumulated result of one `__send_to_hid__` frame: the writes, the
two loop accumulators and the updated destinations. -/
structure FrameResult where
  writes : List Write
  data_exhausted : Bool
  sent_any : Bool
  dests : List (Option Dest)
  deriving Repr, DecidableEq

/-- The loop of `__send_to_hid__` (source lines 324-341) over
`zip(destination_list, values)`.  The base case carries the loop
initializations `data_exhausted = True` and `sent_any = True` (the
source initializes `sent_any` to `True`, not `False`). -/
def processFrame : List (Option Dest × ℚ) → FrameResult
  | [] => { writes := [], data_exhausted := true, sent_any := true, dests := [] }
  | (od, raw) :: rest =>
    let r := processFrame rest
    match od with
    | none => { r with dests := none :: r.dests }
    | some d =>
      let p := d.cooked_value raw
      let s := p.2.send_to_hid p.1
      { writes := s.1 ++ r.writes
        data_exhausted := p.2.data_exhausted && r.data_exhausted
        sent_any := s.2 || r.sent_any
        dests := some p.2 :: r.dests }

/-- `OpenTrackStick.__send_to_hid__`: process the frame, then call
`hid_device.syn()` when `sent_any` holds.  The second component counts
`syn()` calls. -/
def sendToHid (dests : List (Option Dest)) (values : List ℚ) : FrameResult × ℕ :=
  let r := processFrame (dests.zip values)
  (r, if r.sent_any then 1 else 0)

/-- `self.all_output_defs` (source lines 250-268): six sticks, two hats,
three button pairs — 11 entries.  The `ABS_Z` stick (line 261) is
constructed without smoothing arguments, so it uses the class defaults
`smoothing=500, smooth_alpha=0.1`. -/
def all_output_defs (smoothing : ℤ) (alpha : ℚ) : List Dest :=
  [ .stick (mkStickDef ABS_RX (-32767) 32767 smoothing alpha),
    .stick (mkStickDef ABS_RY (-32767) 32767 smoothing alpha),
    .stick (mkStickDef ABS_RZ 0 255 smoothing alpha),
    .stick (mkStickDef ABS_X (-32767) 32767 smoothing alpha),
    .stick (mkStickDef ABS_Y (-32767) 32767 smoothing alpha),
    .stick (mkStickDef ABS_Z 0 255 500 (1/10)),
    .hat ⟨ABS_HAT0X⟩,
    .hat ⟨ABS_HAT0Y⟩,
    .btnPair (BtnPairOutputDef.make BTN_JOYSTICK BTN_BASE),
    .btnPair (BtnPairOutputDef.make BTN_THUMB BTN_THUMB2),
    .btnPair (BtnPairOutputDef.make BTN_TOP BTN_TOP2) ]

/-- The binding loop of `OpenTrackStick.__init__` (source lines 287-297)
over `zip(bindings, self.opentrack_data_items)`: 0 appends `None`,
otherwise index `destination_num - 1` into the catalogue with Python
list indexing; an out-of-range index is Python's `IndexError`. -/
def buildDestinations (cat : List Dest) : List (ℤ × OpenTrackDataItem) →
    Except String (List (Option Dest))
  | [] => .ok []
  | (d, ot) :: rest =>
    if d = 0 then (buildDestinations cat rest).map (fun l => none :: l)
    else
      match pyGet cat (d - 1) with
      | none => .error "IndexError: list index out of range"
      | some dest => (buildDestinations cat rest).map (fun l => some (dest.bind ot) :: l)

/-- `self.destination_list` as built in `__init__` from the configured
bindings and the catalogue. -/
def destination_list (bindings : List ℤ) (smoothing : ℤ) (alpha : ℚ) :
    Except String (List (Option Dest)) :=
  buildDestinations (all_output_defs smoothing alpha) (bindings.zip opentrack_data_items)

/-- Modelled from the spec words of claim C1: a binding list is valid
when it has exactly 6 entries, none negative, and no positive entry
exceeding the catalogue size 11. -/
def specValidBindings (bs : List ℤ) : Prop :=
  bs.length = 6 ∧ ∀ e ∈ bs, 0 ≤ e ∧ e ≤ 11

instance (bs : List ℤ) : Decidable (specValidBindings bs) := by
  unfold specValidBindings; infer_instance

/-- Concrete continuous-axis channel used for the C3 counterexample: a
stick configured with `-s 1` (window length 1, so the smoother is the
identity) whose previous smoothed value is `2e8`. -/
def stickC3 : StickOutputDef :=
  { evdev_code := ABS_RX
    evMin := -32767
    evMax := 32767
    otMin := -90
    otMax := 90
    previous_smoothed_value := 200000000
    data_exhausted := true
    smoother := Smooth.make 1 (1/20) }

/-! Helper lemmas about `pythonRound`, `pyIsClose`, `pyGet` and the
smoothing fold. -/

theorem pythonRound_intCast (n : ℤ) : pythonRound (n : ℚ) = n := by
  unfold pythonRound
  rw [Int.floor_intCast]
  norm_num

theorem pythonRound_le (q : ℚ) : (pythonRound q : ℚ) ≤ q + 1/2 := by
  unfold pythonRound
  have h1 := Int.floor_le q
  have h2 := Int.lt_floor_add_one q
  split_ifs with a b c <;> push_cast <;> linarith

theorem le_pythonRound (q : ℚ) : q - 1/2 ≤ (pythonRound q : ℚ) := by
  unfold pythonRound
  have h1 := Int.floor_le q
  have h2 := Int.lt_floor_add_one q
  split_ifs with a b c <;> push_cast <;> linarith

theorem pythonRound_mono {q r : ℚ} (h : q ≤ r) : pythonRound q ≤ pythonRound r := by
  by_contra hc
  push_neg at hc
  have h1 : (pythonRound r : ℚ) + 1 ≤ (pythonRound q : ℚ) := by
    exact_mod_cast Int.add_one_le_iff.mpr hc
  have h2 := pythonRound_le q
  have h3 := le_pythonRound r
  have hqr : q = r := le_antisymm h (by linarith)
  subst hqr
  exact lt_irrefl _ hc

theorem pyIsClose_zero_iff (q : ℚ) : pyIsClose q 0 (1/1000000000) 0 = true ↔ q = 0 := by
  unfold pyIsClose
  rw [decide_eq_true_iff]
  constructor
  · intro h
    by_contra hq
    have h0 : 0 < |q| := abs_pos.mpr hq
    have hm : max |q| |(0 : ℚ)| = |q| := by simp [abs_nonneg]
    rw [sub_zero, hm] at h
    have hmax : max ((1/1000000000) * |q|) (0 : ℚ) = (1/1000000000) * |q| := by
      apply max_eq_left; positivity
    rw [hmax] at h
    nlinarith
  · intro h
    subst h
    simp

theorem pyGet_eq_none_iff {α : Type} (l : List α) (i : ℤ) :
    pyGet l i = none ↔ (l.length : ℤ) ≤ i ∨ i < -(l.length : ℤ) := by
  by_cases h : 0 ≤ i
  · simp only [pyGet, if_pos h]
    rw [List.getElem?_eq_none_iff]
    omega
  · simp only [pyGet, if_neg h]
    by_cases hj : 0 ≤ (l.length : ℤ) + i
    · rw [if_pos hj]
      constructor
      · intro hn
        rw [List.getElem?_eq_none_iff] at hn
        omega
      · intro hn
        omega
    · rw [if_neg hj]
      constructor
      · intro _
        omega
      · intro _
        rfl

theorem exOk_map {ε α β : Type} (f : α → β) (e : Except ε α) :
    exOk (e.map f) = exOk e := by
  cases e <;> rfl

theorem foldl_lpStep_replicate (a x : ℚ) (k : ℕ) (acc : ℚ) :
    (List.replicate k x).foldl (lpStep a) acc = x - (1 - a)^k * (x - acc) := by
  induction k generalizing acc with
  | zero => simp
  | succ k ih =>
    rw [List.replicate_succ, List.foldl_cons, ih]
    unfold lpStep
    ring

theorem lpFold_zeros_const (a v : ℚ) (m k : ℕ) (hk : 1 ≤ k) :
    lpFold a (List.replicate m 0 ++ List.replicate k v) = v - (1 - a)^k * v := by
  cases m with
  | zero =>
    obtain ⟨k2, rfl⟩ : ∃ k2, k = k2 + 1 := ⟨k - 1, by omega⟩
    simp only [List.replicate_zero, List.nil_append, List.replicate_succ, lpFold,
      List.headD_cons, List.drop_one, List.tail_cons]
    rw [foldl_lpStep_replicate]
    ring
  | succ m2 =>
    simp only [List.replicate_succ, List.cons_append, lpFold, List.headD_cons,
      List.drop_one, List.tail_cons]
    rw [List.foldl_append, foldl_lpStep_replicate, foldl_lpStep_replicate]
    ring

theorem smooth_length (s : Smooth) (v : ℚ) : ((s.smooth v).2).length = s.length := by
  unfold Smooth.smooth Smooth.smooth_lp_filter
  split <;> rfl

theorem smooth_alpha (s : Smooth) (v : ℚ) : ((s.smooth v).2).alpha = s.alpha := by
  unfold Smooth.smooth Smooth.smooth_lp_filter
  split <;> rfl

theorem smooth_values_of_two_le (s : Smooth) (v : ℚ) (h : 2 ≤ s.length) :
    ((s.smooth v).2).values = s.values.drop 1 ++ [v] := by
  unfold Smooth.smooth Smooth.smooth_lp_filter
  rw [if_neg (by omega)]

theorem smooth_fst_of_two_le (s : Smooth) (v : ℚ) (h : 2 ≤ s.length) :
    (s.smooth v).1 = lpFold s.alpha (s.values.drop 1 ++ [v]) := by
  unfold Smooth.smooth Smooth.smooth_lp_filter
  rw [if_neg (by omega)]

theorem feedN_length (s : Smooth) (v : ℚ) (k : ℕ) : (feedN s v k).length = s.length := by
  induction k with
  | zero => rfl
  | succ k ih =>
    show ((feedN s v k).smooth v).2.length = s.length
    rw [smooth_length, ih]

theorem feedN_alpha (s : Smooth) (v : ℚ) (k : ℕ) : (feedN s v k).alpha = s.alpha := by
  induction k with
  | zero => rfl
  | succ k ih =>
    show ((feedN s v k).smooth v).2.alpha = s.alpha
    rw [smooth_alpha, ih]

theorem feedN_make_values (n : ℤ) (hn : 2 ≤ n) (a v : ℚ) (k : ℕ) :
    (feedN (Smooth.make n a) v k).values
      = List.replicate (n.toNat - k) 0 ++ List.replicate (min k n.toNat) v := by
  induction k with
  | zero => simp [feedN, Smooth.make]
  | succ k ih =>
    have h2 : 2 ≤ (feedN (Smooth.make n a) v k).length := by
      rw [feedN_length]; exact hn
    show ((feedN (Smooth.make n a) v k).smooth v).2.values = _
    rw [smooth_values_of_two_le _ _ h2, ih]
    by_cases hk : k < n.toNat
    · have h1 : n.toNat - k = (n.toNat - (k+1)) + 1 := by omega
      rw [h1, List.replicate_succ, List.cons_append, List.drop_one, List.tail_cons,
        List.append_assoc, min_eq_left (by omega : k ≤ n.toNat),
        min_eq_left (by omega : k + 1 ≤ n.toNat), ← List.replicate_succ' k v]
    · have h0 : n.toNat - k = 0 := by omega
      have h0' : n.toNat - (k + 1) = 0 := by omega
      rw [h0, h0', min_eq_right (by omega : n.toNat ≤ k),
        min_eq_right (by omega : n.toNat ≤ k + 1)]
      simp only [List.replicate_zero, List.nil_append]
      have hrep : List.replicate n.toNat v = v :: List.replicate (n.toNat - 1) v := by
        rw [← List.replicate_succ]
        congr 1
        omega
      rw [hrep, List.drop_one, List.tail_cons, ← List.replicate_succ' (n.toNat - 1) v]
      congr 1

theorem smoothOut_eq (n : ℤ) (hn : 2 ≤ n) (a v : ℚ) (j : ℕ) :
    smoothOut n a v j = v * (1 - (1 - a)^(min (j+1) n.toNat)) := by
  unfold smoothOut
  have h2 : 2 ≤ (feedN (Smooth.make n a) v j).length := by
    rw [feedN_length]; exact hn
  rw [smooth_fst_of_two_le _ _ h2, feedN_alpha]
  have ha : (Smooth.make n a).alpha = a := rfl
  rw [ha]
  have hb : (feedN (Smooth.make n a) v j).values.drop 1 ++ [v]
      = List.replicate (n.toNat - (j+1)) 0 ++ List.replicate (min (j+1) n.toNat) v := by
    have hstep := feedN_make_values n hn a v (j+1)
    rw [show feedN (Smooth.make n a) v (j+1) = ((feedN (Smooth.make n a) v j).smooth v).2
        from rfl, smooth_values_of_two_le _ _ h2] at hstep
    exact hstep
  rw [hb, lpFold_zeros_const _ _ _ _ (by omega)]
  ring

theorem specFoldAux_eq_foldl (a : ℚ) (l : List ℚ) (acc : ℚ) :
    specFoldAux a acc l = l.foldl (lpStep a) acc := by
  induction l generalizing acc with
  | nil => rfl
  | cons x rest ih =>
    rw [List.foldl_cons]
    unfold specFoldAux lpStep
    exact ih _

theorem lpFold_eq_specFold (a : ℚ) (l : List ℚ) (x : ℚ) :
    lpFold a (l ++ [x]) = specFold a (l ++ [x]) := by
  cases l with
  | nil =>
    simp [lpFold, specFold, specFoldAux]
  | cons y l2 =>
    simp only [List.cons_append, lpFold, specFold, List.headD_cons, List.drop_one,
      List.tail_cons]
    rw [specFoldAux_eq_foldl]

theorem buildDestinations_ok_iff (cat : List Dest) (hcat : cat.length = 11) :
    ∀ (bs : List ℤ) (items : List OpenTrackDataItem),
      exOk (buildDestinations cat (bs.zip items)) = true ↔
        ∀ e ∈ bs.take items.length, -10 ≤ e ∧ e ≤ 11 := by
  intro bs
  induction bs with
  | nil =>
    intro items
    simp [buildDestinations, exOk]
  | cons d bs ih =>
    intro items
    cases items with
    | nil =>
      simp [buildDestinations, exOk]
    | cons it items =>
      simp only [List.zip_cons_cons, List.length_cons, List.take_succ_cons,
        List.forall_mem_cons]
      unfold buildDestinations
      by_cases hd : d = 0
      · subst hd
        rw [if_pos rfl, exOk_map, ih items]
        constructor
        · intro h
          exact ⟨by omega, h⟩
        · intro h
          exact h.2
      · rw [if_neg hd]
        rcases hget : pyGet cat (d - 1) with _ | x
        · rw [pyGet_eq_none_iff, hcat] at hget
          simp only [exOk]
          constructor
          · intro h
            exact absurd h (by simp)
          · intro h
            omega
        · have hrange : -10 ≤ d ∧ d ≤ 11 := by
            by_contra hr
            have : pyGet cat (d - 1) = none := by
              rw [pyGet_eq_none_iff, hcat]
              omega
            rw [this] at hget
            exact Option.noConfusion hget
          rw [exOk_map, ih items]
          constructor
          · intro h
            exact ⟨hrange, h⟩
          · intro h
            exact h.2

/-- C1: the claim says constructing the binding table raises a
`ConfigurationError` for every list whose length is not 6 or that has a
negative element; in fact no such exception exists and construction
silently accepts `-1` (binding through Python negative indexing). -/
theorem C1_counterexample :
    ¬ specValidBindings [-1, 0, 0, 0, 0, 0] ∧
      exOk (destination_list [-1, 0, 0, 0, 0, 0] 250 (1/20)) = true := by
  constructor
  · intro h
    have := h.2 (-1) (by simp)
    omega
  · rfl

/-- C1 (amended): construction of the destination list fails (with
Python's `IndexError`, not a `ConfigurationError`) exactly when one of
the first six binding entries lies outside `[-10, 11]`; wrong-length
lists are silently truncated or padded by `zip`, and negative entries in
`[-10, -1]` are silently accepted via Python negative indexing. -/
theorem C1_amended (bs : List ℤ) (smoothing : ℤ) (alpha : ℚ) :
    exOk (destination_list bs smoothing alpha) = true ↔
      ∀ e ∈ bs.take 6, -10 ≤ e ∧ e ≤ 11 := by
  unfold destination_list
  rw [buildDestinations_ok_iff (all_output_defs smoothing alpha) rfl bs
    opentrack_data_items]
  rfl

/-- C1 witness: the default binding list is accepted. -/
theorem C1_witness : exOk (destination_list [1, 2, 3, 4, 5, 6] 250 (1/20)) = true :=
  (C1_amended [1, 2, 3, 4, 5, 6] 250 (1/20)).mpr (by decide)

/-- C2: with every channel discarded (`-b 0,0,0,0,0,0`) a frame writes
nothing, yet `syn()` is still issued once, because `__send_to_hid__`
initializes `sent_any = True`; the claim (and the spec) say no
synchronization signal is issued when no value was written. -/
theorem C2_syn_without_writes :
    (sendToHid (List.replicate 6 none) (List.replicate 6 (0 : ℚ))).1.writes = [] ∧
      (sendToHid (List.replicate 6 none) (List.replicate 6 (0 : ℚ))).2 = 1 := by
  constructor <;> rfl

/-- C3: the claim says the exhaustion flag is true exactly when the two
smoothed values differ by at most `0.1` in absolute value for all
magnitudes; but `math.isclose` keeps its default `rel_tol=1e-9`, so at
magnitude `2e8` a difference of `0.15` still sets the flag. -/
theorem C3_counterexample :
    ((stickC3.cooked_value (200000000 + 15/100)).2).data_exhausted = true ∧
      ¬ (|(stickC3.smoother.smooth (200000000 + 15/100)).1 -
            stickC3.previous_smoothed_value| ≤ 1/10) := by
  have hsm : (stickC3.smoother.smooth (200000000 + 15/100)).1 = 200000000 + 15/100 := rfl
  have hprev : stickC3.previous_smoothed_value = (200000000 : ℚ) := rfl
  have e1 : |(200000000 : ℚ) + 15/100 - 200000000| = 15/100 := by
    rw [show (200000000 : ℚ) + 15/100 - 200000000 = 15/100 from by ring]
    exact abs_of_nonneg (by norm_num)
  constructor
  · show pyIsClose ((200000000 : ℚ) + 15/100) 200000000 (1/1000000000) (1/10) = true
    unfold pyIsClose
    rw [decide_eq_true_iff, e1,
      abs_of_nonneg (show (0:ℚ) ≤ 200000000 + 15/100 from by norm_num),
      abs_of_nonneg (show (0:ℚ) ≤ 200000000 from by norm_num),
      max_eq_left (show (200000000 : ℚ) ≤ 200000000 + 15/100 from by norm_num),
      max_eq_left (show (1/10 : ℚ) ≤ (1/1000000000) * (200000000 + 15/100) from by norm_num)]
    norm_num
  · rw [hsm, hprev, e1]
    norm_num

/-- C3 (amended): after `cooked_value`, the exhaustion flag is true
exactly when `|smoothed - previous| <= max(1e-9 * max(|smoothed|,
|previous|), 0.1)` (the `math.isclose` combination of the default
relative tolerance with the absolute tolerance 0.1), and the new
smoothed value is stored as the previous smoothed value. -/
theorem C3_amended (st : StickOutputDef) (raw : ℚ) :
    (((st.cooked_value raw).2).data_exhausted = true ↔
      |(st.smoother.smooth raw).1 - st.previous_smoothed_value| ≤
        max ((1/1000000000) *
          max |(st.smoother.smooth raw).1| |st.previous_smoothed_value|) (1/10)) ∧
    ((st.cooked_value raw).2).previous_smoothed_value = (st.smoother.smooth raw).1 := by
  refine ⟨?_, rfl⟩
  show pyIsClose (st.smoother.smooth raw).1 st.previous_smoothed_value
      (1/1000000000) (1/10) = true ↔ _
  unfold pyIsClose
  rw [decide_eq_true_iff]

/-- C3 witness: the previous-smoothed-value update at a concrete state. -/
theorem C3_witness :
    ((stickC3.cooked_value 0).2).previous_smoothed_value =
      (stickC3.smoother.smooth 0).1 :=
  (C3_amended stickC3 0).2

/-- C4: the claim says every raw value `>= 0.5` produces output 1; but
Python `round` is round-half-to-even, so `round(0.5) == 0` and the hat
output at raw `0.5` is 0, not 1. -/
theorem C4_counterexample :
    (1/2 : ℚ) ≥ 1/2 ∧ HatOutputDef.cooked_value (1/2) = 0 ∧
      HatOutputDef.cooked_value (1/2) ≠ 1 := by
  have hf : ⌊(1/2 : ℚ)⌋ = 0 := by
    rw [Int.floor_eq_zero_iff, Set.mem_Ico]
    constructor <;> norm_num
  have hr : pythonRound (1/2) = 0 := by
    unfold pythonRound
    rw [hf]
    norm_num
  have hc : HatOutputDef.cooked_value (1/2) = 0 := by
    show (if pythonRound ((1:ℚ)/2) = 0 then (0:ℤ)
          else (pythonRound ((1:ℚ)/2)).fdiv |pythonRound ((1:ℚ)/2)|) = 0
    rw [if_pos hr]
  exact ⟨le_refl _, hc, by rw [hc]; decide⟩

/-- C4 (amended): the hat transform rounds half-to-even and returns the
sign of the rounded value: raw strictly above `0.5` gives 1, raw in
`[-0.5, 0.5]` gives 0 (both half-integer endpoints round to the even 0),
and raw strictly below `-0.5` gives -1. -/
theorem C4_amended (raw : ℚ) :
    (1/2 < raw → HatOutputDef.cooked_value raw = 1) ∧
    (-(1/2) ≤ raw → raw ≤ 1/2 → HatOutputDef.cooked_value raw = 0) ∧
    (raw < -(1/2) → HatOutputDef.cooked_value raw = -1) := by
  refine ⟨?_, ?_, ?_⟩
  · intro h
    have hcast : (0 : ℚ) < (pythonRound raw : ℚ) := by
      linarith [le_pythonRound raw]
    have hpos : 0 < pythonRound raw := by exact_mod_cast hcast
    unfold HatOutputDef.cooked_value
    rw [if_neg (by omega), abs_of_pos hpos]
    have h3 : (1 * pythonRound raw).fdiv (pythonRound raw) = 1 :=
      Int.mul_fdiv_cancel _ (by omega)
    rw [one_mul] at h3
    exact h3
  · intro h1 h2
    have h0 : pythonRound raw = 0 := by
      unfold pythonRound
      by_cases hr : 0 ≤ raw
      · have hf : ⌊raw⌋ = 0 := by
          rw [Int.floor_eq_zero_iff]
          exact ⟨hr, by linarith⟩
        rw [hf]
        push_cast
        split_ifs with a b
        · rfl
        · linarith
        · rfl
      · have hf : ⌊raw⌋ = -1 := by
          rw [Int.floor_eq_iff]
          constructor
          · push_cast
            linarith
          · push_cast
            linarith
        rw [hf]
        push_cast
        split_ifs with a b
        · linarith
        · norm_num
        · norm_num
    unfold HatOutputDef.cooked_value
    simp [h0]
  · intro h
    have hcast : (pythonRound raw : ℚ) < 0 := by
      linarith [pythonRound_le raw]
    have hneg : pythonRound raw < 0 := by exact_mod_cast hcast
    unfold HatOutputDef.cooked_value
    rw [if_neg (by omega), abs_of_neg hneg]
    have h3 : ((-1) * (-(pythonRound raw))).fdiv (-(pythonRound raw)) = -1 :=
      Int.mul_fdiv_cancel _ (by omega)
    rw [show (-1) * (-(pythonRound raw)) = pythonRound raw from by ring] at h3
    exact h3

/-- C4 witness: raw 1 is above one half and produces 1. -/
theorem C4_witness : (1/2 : ℚ) < 1 ∧ HatOutputDef.cooked_value 1 = 1 :=
  ⟨by norm_num, (C4_amended 1).1 (by norm_num)⟩

/-- C5: one call of `smooth` with window length at least 2 evicts the
oldest buffered sample, appends the raw sample, and returns the
left-to-right fold described by the spec (`acc = buffer[0] * alpha`,
then `acc = acc + alpha * (v - acc)`); with window length at most 1 it
returns the input unchanged and leaves the state alone. -/
theorem C5_smooth_step (s : Smooth) (v : ℚ) :
    (s.length ≤ 1 → s.smooth v = (v, s)) ∧
    (2 ≤ s.length →
      s.smooth v = (specFold s.alpha (s.values.drop 1 ++ [v]),
        { s with values := s.values.drop 1 ++ [v] })) := by
  constructor
  · intro h
    unfold Smooth.smooth Smooth.smooth_lp_filter
    rw [if_pos h]
  · intro h
    unfold Smooth.smooth Smooth.smooth_lp_filter
    rw [if_neg (by omega)]
    simp only [lpFold_eq_specFold]

/-- C5 witness: a window-2 smoother at a concrete input. -/
theorem C5_witness :
    2 ≤ (Smooth.make 2 (1/2)).length ∧
      (Smooth.make 2 (1/2)).smooth 4 =
        (specFold (1/2) ((Smooth.make 2 (1/2)).values.drop 1 ++ [4]),
          { Smooth.make 2 (1/2) with
              values := (Smooth.make 2 (1/2)).values.drop 1 ++ [4] }) :=
  ⟨by decide, (C5_smooth_step (Smooth.make 2 (1/2)) 4).2 (by decide)⟩

/-- C6: the claim says that for every `v` feeding the constant `v` at
least `n` times brings the output within 0.1 of `v`; with window 2,
alpha one half and `v = 100` the second feed (and every later one)
outputs 75, which is 25 away from `v`. -/
theorem C6_counterexample :
    smoothOut 2 (1/2) 100 1 = 75 ∧ ¬ (|smoothOut 2 (1/2) 100 1 - 100| ≤ 1/10) := by
  have h := smoothOut_eq 2 (by norm_num) (1/2) 100 1
  rw [show min (1+1) (2:ℤ).toNat = 2 from rfl] at h
  have h75 : smoothOut 2 (1/2) 100 1 = 75 := by
    rw [h]
    norm_num
  refine ⟨h75, ?_⟩
  rw [h75]
  intro hcon
  rw [abs_le] at hcon
  have := hcon.1
  norm_num at this

/-- C6 (amended): feeding the constant `v` into a fresh smoother with
window `n >= 2` and alpha in (0,1), the output of feed `j+1` is
`v * (1 - (1-alpha)^min(j+1, n))`; the distance to `v` is
`|v| * (1-alpha)^min(j+1, n)`, which decreases monotonically in `j` and
stabilizes after `n` feeds, so the output is within 0.1 of `v` after at
least `n` feeds exactly when `|v| * (1-alpha)^n <= 0.1` — not for every
`v`. -/
theorem C6_amended (n : ℤ) (a v : ℚ) (j : ℕ) (hn : 2 ≤ n) (ha0 : 0 < a) (ha1 : a < 1) :
    smoothOut n a v j = v * (1 - (1 - a)^(min (j+1) n.toNat)) ∧
    |smoothOut n a v j - v| = |v| * (1 - a)^(min (j+1) n.toNat) ∧
    |smoothOut n a v (j+1) - v| ≤ |smoothOut n a v j - v| ∧
    (|v| * (1 - a)^n.toNat ≤ 1/10 → n.toNat ≤ j + 1 → |smoothOut n a v j - v| ≤ 1/10) := by
  have key : ∀ i : ℕ, |smoothOut n a v i - v| = |v| * (1 - a)^(min (i+1) n.toNat) := by
    intro i
    rw [smoothOut_eq n hn a v i]
    rw [show v * (1 - (1 - a)^(min (i+1) n.toNat)) - v
        = -(v * (1 - a)^(min (i+1) n.toNat)) from by ring]
    rw [abs_neg, abs_mul, abs_of_nonneg (show (0:ℚ) ≤ (1 - a)^(min (i+1) n.toNat) from
      pow_nonneg (by linarith) _)]
  refine ⟨smoothOut_eq n hn a v j, key j, ?_, ?_⟩
  · rw [key j, key (j+1)]
    apply mul_le_mul_of_nonneg_left _ (abs_nonneg v)
    exact pow_le_pow_of_le_one (by linarith) (by linarith) (by omega)
  · intro hv hj
    rw [key j, min_eq_right (by omega : n.toNat ≤ j + 1)]
    exact hv

/-- C6 witness: the first feed of 100 into a window-2, alpha one-half
smoother follows the formula (output 50). -/
theorem C6_witness :
    (2 : ℤ) ≤ 2 ∧ (0 : ℚ) < 1/2 ∧ (1/2 : ℚ) < 1 ∧
      smoothOut 2 (1/2) 100 0 = 100 * (1 - (1 - 1/2)^(min (0+1) (2:ℤ).toNat)) :=
  ⟨le_refl _, by norm_num, by norm_num,
    (C6_amended 2 (1/2) 100 0 (le_refl _) (by norm_num) (by norm_num)).1⟩

/-- C7: the rescale step is monotonic and range-preserving — the logical
minimum maps exactly to the device minimum, the logical maximum exactly
to the device maximum — and values outside the logical range extrapolate
linearly with no clamping (the double-range input maps to the
double-range output beyond the device maximum). -/
theorem C7_rescale (evMin evMax otMin otMax : ℤ) (hot : otMin < otMax) (hev : evMin ≤ evMax) :
    rescale evMin evMax otMin otMax (otMin : ℚ) = evMin ∧
    rescale evMin evMax otMin otMax (otMax : ℚ) = evMax ∧
    (∀ s1 s2 : ℚ, s1 ≤ s2 →
      rescale evMin evMax otMin otMax s1 ≤ rescale evMin evMax otMin otMax s2) ∧
    rescale evMin evMax otMin otMax ((2 * otMax - otMin : ℤ) : ℚ) = 2 * evMax - evMin := by
  have hd : (0 : ℚ) < (otMax : ℚ) - otMin := by
    rw [sub_pos]
    exact_mod_cast hot
  have hdne : ((otMax : ℚ) - otMin) ≠ 0 := ne_of_gt hd
  refine ⟨?_, ?_, ?_, ?_⟩
  · unfold rescale
    rw [sub_self, zero_div, zero_mul,
      show (0:ℚ) = ((0:ℤ):ℚ) from by norm_num, pythonRound_intCast]
    omega
  · unfold rescale
    rw [div_self hdne, one_mul,
      show ((evMax:ℚ) - evMin) = ((evMax - evMin : ℤ) : ℚ) from by push_cast; ring,
      pythonRound_intCast]
    omega
  · intro s1 s2 h
    unfold rescale
    have harg : (s1 - otMin) / ((otMax:ℚ) - otMin) * ((evMax:ℚ) - evMin) ≤
        (s2 - otMin) / ((otMax:ℚ) - otMin) * ((evMax:ℚ) - evMin) := by
      apply mul_le_mul_of_nonneg_right
      · exact (div_le_div_iff_of_pos_right hd).mpr (by linarith)
      · rw [sub_nonneg]
        exact_mod_cast hev
    exact add_le_add_left (pythonRound_mono harg) evMin
  · unfold rescale
    rw [show (((2 * otMax - otMin : ℤ) : ℚ) - otMin) / ((otMax:ℚ) - otMin) = 2 from by
        rw [div_eq_iff hdne]
        push_cast
        ring,
      show (2 : ℚ) * ((evMax:ℚ) - evMin) = ((2 * (evMax - evMin) : ℤ) : ℚ) from by
        push_cast
        ring,
      pythonRound_intCast]
    omega

/-- C7 witness: the yaw range bound to a full-width stick axis. -/
theorem C7_witness :
    rescale (-32767) 32767 (-90) 90 ((-90 : ℤ) : ℚ) = -32767 ∧
    rescale (-32767) 32767 (-90) 90 ((90 : ℤ) : ℚ) = 32767 ∧
    rescale (-32767) 32767 (-90) 90 0 ≤ rescale (-32767) 32767 (-90) 90 1 ∧
    rescale (-32767) 32767 (-90) 90 ((2 * 90 - (-90) : ℤ) : ℚ) = 2 * 32767 - (-32767) := by
  have h := C7_rescale (-32767) 32767 (-90) 90 (by norm_num) (by norm_num)
  exact ⟨h.1, h.2.1, h.2.2.1 0 1 (by norm_num), h.2.2.2⟩

/-- C8: a button-pair raw value close to zero gives no press and the
channel is skipped (nothing written, `send_to_hid` returns false); a
positive raw selects the plus code with value 1; a negative raw selects
the minus code with value 1; and the channel writes at most one event
per frame. -/
theorem C8_btn_pair (bp : BtnPairOutputDef) (r : ℚ) :
    (pyIsClose r 0 (1/1000000000) 0 = true →
      ((Dest.btnPair bp).cooked_value r).1 = none ∧
      (((Dest.btnPair bp).cooked_value r).2.send_to_hid
        ((Dest.btnPair bp).cooked_value r).1).1 = [] ∧
      (((Dest.btnPair bp).cooked_value r).2.send_to_hid
        ((Dest.btnPair bp).cooked_value r).1).2 = false) ∧
    (0 < r →
      ((Dest.btnPair bp).cooked_value r).1 = some 1 ∧
      (((Dest.btnPair bp).cooked_value r).2.send_to_hid
        ((Dest.btnPair bp).cooked_value r).1).1 = [⟨EV_KEY, bp.evdev_code_plus, 1⟩]) ∧
    (r < 0 →
      ((Dest.btnPair bp).cooked_value r).1 = some 1 ∧
      (((Dest.btnPair bp).cooked_value r).2.send_to_hid
        ((Dest.btnPair bp).cooked_value r).1).1 = [⟨EV_KEY, bp.evdev_code_minus, 1⟩]) ∧
    (((Dest.btnPair bp).cooked_value r).2.send_to_hid
      ((Dest.btnPair bp).cooked_value r).1).1.length ≤ 1 := by
  by_cases hz : r = 0
  · have hcl : pyIsClose r 0 (1/1000000000) 0 = true := (pyIsClose_zero_iff r).mpr hz
    have hck : (Dest.btnPair bp).cooked_value r = (none, .btnPair bp) := by
      simp only [Dest.cooked_value, BtnPairOutputDef.cooked_value]
      rw [if_pos hcl]
    refine ⟨fun _ => ?_, fun hlt => ?_, fun hlt => ?_, ?_⟩
    · rw [hck]
      exact ⟨rfl, rfl, rfl⟩
    · rw [hz] at hlt
      exact absurd hlt (lt_irrefl 0)
    · rw [hz] at hlt
      exact absurd hlt (lt_irrefl 0)
    · rw [hck]
      exact Nat.zero_le 1
  · have hcl : ¬ (pyIsClose r 0 (1/1000000000) 0 = true) :=
      fun hc => hz ((pyIsClose_zero_iff r).mp hc)
    by_cases hp : 0 < r
    · have hck : (Dest.btnPair bp).cooked_value r =
          (some 1, .btnPair { bp with evdev_code := bp.evdev_code_plus }) := by
        simp only [Dest.cooked_value, BtnPairOutputDef.cooked_value]
        rw [if_neg hcl, if_pos hp]
      refine ⟨fun hc => absurd hc hcl, fun _ => ?_, fun hlt => absurd hp (by linarith), ?_⟩
      · rw [hck]
        exact ⟨rfl, rfl⟩
      · rw [hck]
        exact le_refl 1
    · have hneg : r < 0 := by
        rcases lt_trichotomy r 0 with h | h | h
        · exact h
        · exact absurd h hz
        · exact absurd h hp
      have hck : (Dest.btnPair bp).cooked_value r =
          (some 1, .btnPair { bp with evdev_code := bp.evdev_code_minus }) := by
        simp only [Dest.cooked_value, BtnPairOutputDef.cooked_value]
        rw [if_neg hcl, if_neg hp]
      refine ⟨fun hc => absurd hc hcl, fun hlt => absurd hlt hp, fun _ => ?_, ?_⟩
      · rw [hck]
        exact ⟨rfl, rfl⟩
      · rw [hck]
        exact le_refl 1

/-- C8 witness: raw 1 presses the plus button of the thumb pair. -/
theorem C8_witness :
    (0 : ℚ) < 1 ∧
      ((Dest.btnPair (BtnPairOutputDef.make BTN_THUMB BTN_THUMB2)).cooked_value 1).1 = some 1 :=
  ⟨by norm_num,
    ((C8_btn_pair (BtnPairOutputDef.make BTN_THUMB BTN_THUMB2) 1).2.1 (by norm_num)).1⟩

/-- C9: `math.isclose(raw, 0.0)` with default tolerances holds exactly
when `raw == 0.0`, so every nonzero raw value, however tiny, produces a
cooked value 1 and exactly one button write. -/
theorem C9_isclose_exact_zero :
    (∀ q : ℚ, pyIsClose q 0 (1/1000000000) 0 = true ↔ q = 0) ∧
    (∀ (bp : BtnPairOutputDef) (q : ℚ), q ≠ 0 →
      ((Dest.btnPair bp).cooked_value q).1 = some 1 ∧
      (((Dest.btnPair bp).cooked_value q).2.send_to_hid
        ((Dest.btnPair bp).cooked_value q).1).1.length = 1) := by
  refine ⟨pyIsClose_zero_iff, ?_⟩
  intro bp q hq
  have hcl : ¬ (pyIsClose q 0 (1/1000000000) 0 = true) :=
    fun hc => hq ((pyIsClose_zero_iff q).mp hc)
  by_cases hp : 0 < q
  · have hck : (Dest.btnPair bp).cooked_value q =
        (some 1, .btnPair { bp with evdev_code := bp.evdev_code_plus }) := by
      simp only [Dest.cooked_value, BtnPairOutputDef.cooked_value]
      rw [if_neg hcl, if_pos hp]
    rw [hck]
    exact ⟨rfl, rfl⟩
  · have hck : (Dest.btnPair bp).cooked_value q =
        (some 1, .btnPair { bp with evdev_code := bp.evdev_code_minus }) := by
      simp only [Dest.cooked_value, BtnPairOutputDef.cooked_value]
      rw [if_neg hcl, if_neg hp]
    rw [hck]
    exact ⟨rfl, rfl⟩

/-- C9 witness: the tiny value `1e-300` still produces a press. -/
theorem C9_witness :
    ((Dest.btnPair (BtnPairOutputDef.make BTN_TOP BTN_TOP2)).cooked_value (1/10^300)).1
      = some 1 :=
  (C9_isclose_exact_zero.2 (BtnPairOutputDef.make BTN_TOP BTN_TOP2) (1/10^300)
    (by positivity)).1

/-- C10: a fresh smoother's buffer is `n` zeros, a smooth call preserves
the buffer length, and for window `n >= 2` the first call returns
`alpha * v` (which differs from `v` whenever `alpha` is not 1 and `v` is
nonzero): the initial output is biased toward zero. -/
theorem C10_fresh_smoother (n : ℤ) (a v : ℚ) (s : Smooth) (w : ℚ) :
    (Smooth.make n a).values = List.replicate n.toNat 0 ∧
    (1 ≤ s.values.length → ((s.smooth w).2).values.length = s.values.length) ∧
    (2 ≤ n → ((Smooth.make n a).smooth v).1 = a * v) ∧
    (2 ≤ n → a ≠ 1 → v ≠ 0 → ((Smooth.make n a).smooth v).1 ≠ v) := by
  have key : 2 ≤ n → ((Smooth.make n a).smooth v).1 = a * v := by
    intro hn
    have h := smoothOut_eq n hn a v 0
    rw [show min (0+1) n.toNat = 1 from min_eq_left (by omega), pow_one] at h
    have h2 : smoothOut n a v 0 = ((Smooth.make n a).smooth v).1 := rfl
    rw [h2] at h
    rw [h]
    ring
  refine ⟨rfl, ?_, key, ?_⟩
  · intro h
    unfold Smooth.smooth Smooth.smooth_lp_filter
    split_ifs with hc
    · rfl
    · show (s.values.drop 1 ++ [w]).length = s.values.length
      rw [List.length_append, List.length_drop]
      simp only [List.length_singleton]
      omega
  · intro hn ha hv
    rw [key hn]
    intro heq
    rcases mul_eq_zero.mp (show v * (a - 1) = 0 from by linear_combination heq) with h | h
    · exact hv h
    · exact ha (by linarith)

/-- C10 witness: a window-3 smoother preserves its buffer length and
returns half of the first sample. -/
theorem C10_witness :
    (((Smooth.make 3 (1/2)).smooth 8).2).values.length
        = (Smooth.make 3 (1/2)).values.length ∧
      ((Smooth.make 3 (1/2)).smooth 8).1 = (1/2) * 8 :=
  ⟨(C10_fresh_smoother 3 (1/2) 8 (Smooth.make 3 (1/2)) 8).2.1 (by decide),
    (C10_fresh_smoother 3 (1/2) 8 (Smooth.make 3 (1/2)) 8).2.2.1 (by norm_num)⟩

end OpentrackStick
